import Mathlib

/-!
Shallow embedding of the CHIP-8 interpreter core from `src/main.rs`.

Machine integers are embedded as `Nat` with explicit `% 2^w` where the
Rust code performs wrapping arithmetic on `u8`/`u16` values (the release
semantics of `+=`, `-=`, `<<=` on unsigned integers).  Every operation
that can panic in the Rust code (out-of-bounds slice indexing, popping an
empty `Vec`, `todo!()` stubs, the unknown-instruction arm) is embedded as
an `Option`-valued function returning `none` at the panic point.

The `[[bool; 64]; 32]` framebuffer is embedded as a function
`Nat → Nat → Bool` (row index first, then column, exactly as
`display[screen_y][screen_x]` is indexed in the source); the sixteen
`u8` registers and the 4096-byte memory are likewise embedded as
functions out of `Nat`.  The `Vec<u16>` call stack is embedded as a
`List Nat` whose head is the top of the stack (the last element pushed).
-/

/-- Framebuffer type: row index, column index, pixel state. -/
abbrev Display := Nat → Nat → Bool

/-- The machine state, field for field the `Chip8` struct of the source. -/
structure Chip8 where
  mem : Nat → Nat
  pc : Nat
  reg_i : Nat
  stack : List Nat
  registers : Nat → Nat
  display : Display
  delay_timer : Nat
  sound_timer : Nat

/-- `Chip8::new`: all fields zeroed except `pc = 0x200`. -/
def Chip8.new : Chip8 :=
  { mem := fun _ => 0
    pc := 0x200
    reg_i := 0
    stack := []
    registers := fun _ => 0
    display := fun _ _ => false
    delay_timer := 0
    sound_timer := 0 }

/-- `split_nibbles`: the four 4-bit nibbles of a 16-bit word, high to low. -/
def split_nibbles (word : Nat) : Nat × Nat × Nat × Nat :=
  ((word >>> 12) &&& 0xF, (word >>> 8) &&& 0xF, (word >>> 4) &&& 0xF, word &&& 0xF)

/-- `conc_nibbles`: fold the nibbles into an address, `u16` wrapping on the shift. -/
def conc_nibbles (nibbs : List Nat) : Nat :=
  nibbs.foldl (fun addr nibb => ((addr <<< 4) % 65536) ||| nibb) 0

/-- Write register `i` (the embedding of `self.registers[i] = v`). -/
def setReg (st : Chip8) (i v : Nat) : Chip8 :=
  { st with registers := fun j => if j = i then v else st.registers j }

/-- Write one framebuffer pixel (the embedding of `self.display[r][c] = b`). -/
def updPix (d : Display) (r c : Nat) (b : Bool) : Display :=
  fun r' c' => if r' = r ∧ c' = c then b else d r' c'

/-- One iteration of the inner `for j in 0..8` loop of the `Dxyn` arm:
test bit `7 - j` of the sprite byte and, if set, record a collision in the
flag accumulator and XOR-flip the pixel at `((x_pos + j) % 64)` in row
`screen_y`.  The accumulator carries the mutable state of the loop: the
framebuffer and the value of `VF`. -/
def drawBitStep (sprite_data x_pos screen_y : Nat) (acc : Display × Nat) (j : Nat) :
    Display × Nat :=
  let pixel := (sprite_data >>> (7 - j)) &&& 1 != 0
  if pixel then
    let screen_x := (x_pos + j) % 64
    let f := if acc.1 screen_y screen_x then 1 else acc.2
    (updPix acc.1 screen_y screen_x (xor (acc.1 screen_y screen_x) true), f)
  else acc

/-- The inner `for j in 0..8` loop of the `Dxyn` arm for one sprite row. -/
def drawRow (sprite_data x_pos screen_y : Nat) (acc : Display × Nat) : Display × Nat :=
  (List.range 8).foldl (drawBitStep sprite_data x_pos screen_y) acc

/-- One iteration of the outer `for i in 0..n` loop: draw the sprite byte at
`mem[reg_i + i]` into row `(y_pos + i) % 32`. -/
def drawRowStep (st : Chip8) (x_pos y_pos : Nat) (acc : Display × Nat) (i : Nat) :
    Display × Nat :=
  drawRow (st.mem (st.reg_i + i)) x_pos ((y_pos + i) % 32) acc

/-- The two nested loops of the `Dxyn` arm, starting from the current
framebuffer and `VF = 0` (the source resets `self.registers[0xF] = 0`
before the loops). -/
def drawRows (st : Chip8) (x_pos y_pos n : Nat) : Display × Nat :=
  (List.range n).foldl (drawRowStep st x_pos y_pos) (st.display, 0)

/-- The `Dxyn` arm of `Chip8::execute`.  The source reads `x_pos`/`y_pos`
from the registers before resetting `VF`.  Each loop iteration indexes
`self.mem[self.reg_i + i]`, which panics when the address is out of
bounds; the guard is the exact condition under which no read panics
(vacuously when `n = 0`). -/
def draw (st : Chip8) (x y n : Nat) : Option Chip8 :=
  let x_pos := st.registers x % 64
  let y_pos := st.registers y % 32
  if n = 0 ∨ st.reg_i + n ≤ 4096 then
    let res := drawRows st x_pos y_pos n
    some { st with
            display := res.1
            registers := fun j => if j = 0xF then res.2 else st.registers j }
  else none

/-- `Chip8::clear_screen`. -/
def clear_screen (st : Chip8) : Chip8 :=
  { st with display := fun _ _ => false }

/-- `Chip8::execute`, arm for arm in source order.  `todo!()` arms, the
empty-stack pop and the unknown-instruction arm panic in the source and
are embedded as `none`. -/
def execute (st : Chip8) (instruction : Nat) : Option Chip8 :=
  match split_nibbles instruction with
  | (0x0, 0x0, 0xE, 0x0) => some (clear_screen st)
  | (0x0, 0x0, 0xE, 0xE) =>
      match st.stack with
      | [] => none
      | a :: rest => some { st with pc := a, stack := rest }
  | (0x1, nibb1, nibb2, nibb3) =>
      some { st with pc := conc_nibbles [nibb1, nibb2, nibb3] }
  | (0x2, nibb1, nibb2, nibb3) =>
      some { st with stack := st.pc :: st.stack, pc := conc_nibbles [nibb1, nibb2, nibb3] }
  | (0x3, x, nibb1, nibb2) =>
      let val := (nibb1 <<< 4) ||| nibb2
      some (if st.registers x = val then { st with pc := (st.pc + 2) % 65536 } else st)
  | (0x4, x, nibb1, nibb2) =>
      let val := (nibb1 <<< 4) ||| nibb2
      some (if st.registers x ≠ val then { st with pc := (st.pc + 2) % 65536 } else st)
  | (0x5, x, y, 0x0) =>
      some (if st.registers x = st.registers y then { st with pc := (st.pc + 2) % 65536 } else st)
  | (0x6, x, nibb1, nibb2) =>
      some (setReg st x ((nibb1 <<< 4) ||| nibb2))
  | (0x7, x, nibb1, nibb2) =>
      let val := (nibb1 <<< 4) ||| nibb2
      some (setReg st x ((st.registers x + val) % 256))
  | (0x8, x, y, 0x0) => some (setReg st x (st.registers y))
  | (0x8, x, y, 0x1) => some (setReg st x (st.registers x ||| st.registers y))
  | (0x8, x, y, 0x2) => some (setReg st x (st.registers x &&& st.registers y))
  | (0x8, x, y, 0x3) => some (setReg st x (st.registers x ^^^ st.registers y))
  | (0x8, x, y, 0x4) =>
      let x_val := st.registers x
      let y_val := st.registers y
      let sum := x_val + y_val
      let st1 := if sum > 255 then setReg st 0xF 1 else st
      some (setReg st1 x ((st1.registers x + st1.registers y) % 256))
  | (0x8, x, y, 0x5) =>
      some (setReg st x ((st.registers x + 256 - st.registers y) % 256))
  | (0x8, _, _, 0x6) => none
  | (0x8, x, y, 0x7) =>
      let res := (st.registers x + 256 - st.registers y) % 256
      some (setReg st x res)
  | (0x8, _, _, 0xE) => none
  | (0x9, x, y, 0x0) =>
      some (if st.registers x ≠ st.registers y then { st with pc := (st.pc + 2) % 65536 } else st)
  | (0xA, nibb1, nibb2, nibb3) =>
      some { st with reg_i := conc_nibbles [nibb1, nibb2, nibb3] }
  | (0xB, _, _, _) => none
  | (0xC, _, _, _) => none
  | (0xD, x, y, n) => draw st x y n
  | (0xE, _, 0x9, 0xE) => none
  | (0xE, _, 0xA, 0x1) => none
  | (0xF, x, 0x0, 0x7) => some (setReg st x st.delay_timer)
  | (0xF, x, 0x1, 0x5) => some { st with delay_timer := st.registers x }
  | (0xF, x, 0x1, 0x8) => some { st with sound_timer := st.registers x }
  | (0xF, x, 0x1, 0xE) => some { st with reg_i := (st.reg_i + st.registers x) % 65536 }
  | (0xF, _, 0x0, 0xA) => none
  | (0xF, _, 0x2, 0x9) => none
  | (0xF, x, 0x3, 0x3) =>
      let val := st.registers x
      let digit1 := val / 100
      let digit2 := (val % 100 - val % 10) / 10
      let digit3 := val % 10
      if st.reg_i + 2 < 4096 then
        some { st with mem := fun a =>
                if a = st.reg_i + 2 then digit3
                else if a = st.reg_i + 1 then digit2
                else if a = st.reg_i then digit1
                else st.mem a }
      else none
  | (0xF, _, 0x5, 0x5) => none
  | (0xF, _, 0x6, 0x5) => none
  | _ => none

/-- `Chip8::fetch`: big-endian combine `mem[pc]` and `mem[pc + 1]`, advance
`pc` by 2.  Indexing out of bounds panics in the source. -/
def fetch (st : Chip8) : Option (Nat × Chip8) :=
  if st.pc + 1 < 4096 then
    let byte1 := st.mem st.pc
    let byte2 := st.mem (st.pc + 1)
    some ((byte1 <<< 8) ||| byte2, { st with pc := st.pc + 2 })
  else none

/-- One iteration of the driver loop in `main`: `fetch` then `execute`. -/
def step (st : Chip8) : Option Chip8 :=
  match fetch st with
  | none => none
  | some (instruction, st') => execute st' instruction

/-- `Chip8::decrement_timers`: both timers saturate at zero. -/
def decrement_timers (st : Chip8) : Chip8 :=
  let st1 := if st.delay_timer > 0 then { st with delay_timer := st.delay_timer - 1 } else st
  if st1.sound_timer > 0 then { st1 with sound_timer := st1.sound_timer - 1 } else st1

/-- Specification-side predicate: the sprite of a `Dxyn` draw from state
`st` has a set bit landing on pixel `(r, c)`: some row `i < n` and bit
`j < 8` of the sprite byte `mem[I + i]` is 1 and targets
`((Vy + i) % 32, (Vx + j) % 64)`. -/
def spriteBit (st : Chip8) (x y n r c : Nat) : Bool :=
  (List.range n).any fun i =>
    (List.range 8).any fun j =>
      ((st.mem (st.reg_i + i)) >>> (7 - j) &&& 1 != 0) &&
      (r == (st.registers y + i) % 32) && (c == (st.registers x + j) % 64)

/-- Specification-side predicate: the `Dxyn` draw from state `st` has a
collision, i.e. some set sprite bit lands on a pixel that is currently on
(that pixel transitions from on to off). -/
def collides (st : Chip8) (x y n : Nat) : Bool :=
  (List.range n).any fun i =>
    (List.range 8).any fun j =>
      ((st.mem (st.reg_i + i)) >>> (7 - j) &&& 1 != 0) &&
      st.display ((st.registers y + i) % 32) ((st.registers x + j) % 64)

/-- Proof scaffolding: the first `k` bits of one sprite row have a set bit
landing on pixel `(r, c)` of row `screen_y`. -/
def rowHit (sprite_data x_pos screen_y k r c : Nat) : Bool :=
  (List.range k).any fun j =>
    (sprite_data >>> (7 - j) &&& 1 != 0) && (r == screen_y) && (c == (x_pos + j) % 64)

/-- Proof scaffolding: the first `k` bits of one sprite row have a set bit
landing on a pixel of `d` that is on. -/
def rowColl (d : Display) (sprite_data x_pos screen_y k : Nat) : Bool :=
  (List.range k).any fun j =>
    (sprite_data >>> (7 - j) &&& 1 != 0) && d screen_y ((x_pos + j) % 64)

/-- Proof scaffolding: the first `k` sprite rows have a set bit landing on
pixel `(r, c)`. -/
def hitUpTo (st : Chip8) (x_pos y_pos k r c : Nat) : Bool :=
  (List.range k).any fun i =>
    rowHit (st.mem (st.reg_i + i)) x_pos ((y_pos + i) % 32) 8 r c

/-- Proof scaffolding: the first `k` sprite rows collide with a pixel of
`d` that is on. -/
def collUpTo (d : Display) (st : Chip8) (x_pos y_pos k : Nat) : Bool :=
  (List.range k).any fun i =>
    rowColl d (st.mem (st.reg_i + i)) x_pos ((y_pos + i) % 32) 8

/-! ### Concrete states used by counterexample evaluations and witnesses -/

/-- State with `V0 = 1`, `V1 = 1`, `VF = 1`, exercising `8xy4` without carry. -/
def c1state : Chip8 :=
  { Chip8.new with registers := fun i => if i = 0xF then 1 else if i ≤ 1 then 1 else 0 }

/-- State with `V0 = 200`, `VF = 200`, exercising `8xy4` with `x = 0xF`. -/
def c2state : Chip8 :=
  { Chip8.new with registers := fun i => if i = 0xF then 200 else if i = 0 then 200 else 0 }

/-- State with `V0 = 5`, `V1 = 3`, `VF = 0`, exercising `8xy5` with no borrow. -/
def c4state : Chip8 :=
  { Chip8.new with registers := fun i => if i = 0 then 5 else if i = 1 then 3 else 0 }

/-- Program memory with `2300` at `0x200` and `00EE` at `0x300`. -/
def c7program : Chip8 :=
  { Chip8.new with mem := fun a => if a = 0x200 then 0x23 else if a = 0x301 then 0xEE else 0 }

/-- State with one return address `5` on the call stack. -/
def c7retState : Chip8 :=
  { Chip8.new with stack := [5] }

/-- State with `V0 = 159`, exercising `Fx33`. -/
def bcdState : Chip8 :=
  { Chip8.new with registers := fun i => if i = 0 then 159 else 0 }

/-- State with the 2-row sprite `{0xFF, 0x00}` at address 0, `I = 0`,
`V0 = 0`, an all-off framebuffer: the `D002` scenario of the spec. -/
def d002state : Chip8 :=
  { Chip8.new with mem := fun a => if a = 0 then 0xFF else 0 }

/-- The state after one `D002` draw from `d002state` (the characterized
post-draw state). -/
def c6wit1 : Chip8 :=
  { d002state with
      display := (fun r c => xor (d002state.display r c) (spriteBit d002state 0 0 2 r c))
      registers := (fun j => if j = 0xF then (if collides d002state 0 0 2 then 1 else 0)
        else d002state.registers j) }

/-- The state after a second `D002` draw, from `c6wit1`. -/
def c6wit2 : Chip8 :=
  { c6wit1 with
      display := (fun r c => xor (c6wit1.display r c) (spriteBit c6wit1 0 0 2 r c))
      registers := (fun j => if j = 0xF then (if collides c6wit1 0 0 2 then 1 else 0)
        else c6wit1.registers j) }

/-! ### Claim theorems -/

/-- C1: the claim says `8xy4` sets `VF := 0` when the unwrapped sum does not
exceed 255.  The code has no `else` branch: with `V0 = 1`, `V1 = 1`,
`VF = 1`, executing `0x8014` yields `V0 = 2` but leaves `VF = 1`, where the
claim requires `VF = 0`. -/
theorem execute_8xy4_flag_not_cleared :
    (execute c1state 0x8014).map (fun s => (s.registers 0, s.registers 0xF)) = some (2, 1) := by
  decide

/-- C2: the claim says flag writes override data writes to `VF`; in the code
the carry flag is written first and `registers[x] += registers[y]` then
overwrites it when `x = 0xF`.  With `VF = 200`, `V0 = 200`, executing
`0x8F04` (carry case) leaves `VF = (1 + 200) % 256 = 201`, not the carry
flag `1` the claim requires. -/
theorem execute_8xy4_vf_dest_clobbers_flag :
    (execute c2state 0x8F04).map (fun s => s.registers 0xF) = some 201 := by
  decide

/-- C4: the claim says `8xy5` sets `VF := 1` when `Vx ≥ Vy` before the
subtraction.  The code performs only the wrapping subtraction and never
writes `VF`: with `V0 = 5`, `V1 = 3`, `VF = 0`, executing `0x8015` yields
`V0 = 2` but `VF = 0`, where the claim requires `VF = 1`. -/
theorem execute_8xy5_no_borrow_flag :
    (execute c4state 0x8015).map (fun s => (s.registers 0, s.registers 0xF)) = some (2, 0) := by
  decide

/-- C7: `2nnn` pushes the (already fetch-advanced) `pc` and jumps to `nnn`;
`00EE` on a non-empty stack pops the top return address into `pc`; and the
two-step scenario `2300` at `0x200`, `00EE` at `0x300` ends with
`pc = 0x202`, not `0x300`. -/
theorem call_return_roundtrip :
    (∀ st w n1 n2 n3, split_nibbles w = (0x2, n1, n2, n3) →
      execute st w = some { st with stack := st.pc :: st.stack, pc := conc_nibbles [n1, n2, n3] }) ∧
    (∀ st a rest, st.stack = a :: rest →
      execute st 0x00EE = some { st with pc := a, stack := rest }) ∧
    ((step c7program).bind step).map Chip8.pc = some 0x202 ∧
    ((step c7program).bind step).map Chip8.pc ≠ some 0x300 := by
  refine ⟨?_, ?_, ?_, ?_⟩
  · intro st w n1 n2 n3 h
    unfold execute
    rw [h]
  · intro st a rest h
    unfold execute
    rw [show split_nibbles 0x00EE = (0x0, 0x0, 0xE, 0xE) from rfl, h]
  · decide
  · decide

/-- C7 witness: the pop conjunct applied to the concrete state with stack
`[5]`. -/
theorem call_return_roundtrip_witness :
    execute c7retState 0x00EE = some { c7retState with pc := 5, stack := [] } :=
  call_return_roundtrip.2.1 c7retState 5 [] rfl

/-- C8: executing `00EE` on an empty call stack is a fatal fault (the
source panics via `.expect`, embedded as `none`, so execution does not
continue); on a non-empty stack it does not fault. -/
theorem ret_empty_stack_faults :
    ∀ st : Chip8,
      (st.stack = [] → execute st 0x00EE = none) ∧
      (st.stack ≠ [] → (execute st 0x00EE).isSome = true) := by
  intro st
  constructor
  · intro h
    unfold execute
    rw [show split_nibbles 0x00EE = (0x0, 0x0, 0xE, 0xE) from rfl, h]
  · intro h
    unfold execute
    rw [show split_nibbles 0x00EE = (0x0, 0x0, 0xE, 0xE) from rfl]
    match hs : st.stack with
    | [] => exact absurd hs h
    | a :: rest => simp

/-- C8 witness: the empty-stack fault at the freshly constructed machine. -/
theorem ret_empty_stack_faults_witness :
    execute Chip8.new 0x00EE = none :=
  (ret_empty_stack_faults Chip8.new).1 rfl

/-- C9: the opcode families `8xy6`, `8xyE`, `Bnnn`, `Cxkk`, `Ex9E`, `ExA1`,
`Fx0A`, `Fx29`, `Fx55`, `Fx65` are `todo!()` stubs in the source: executing
any instruction decoding to one of them panics (embedded as `none`), for
every machine state. -/
theorem unimplemented_opcodes_fault :
    (∀ st w x y, split_nibbles w = (0x8, x, y, 0x6) → execute st w = none) ∧
    (∀ st w x y, split_nibbles w = (0x8, x, y, 0xE) → execute st w = none) ∧
    (∀ st w n1 n2 n3, split_nibbles w = (0xB, n1, n2, n3) → execute st w = none) ∧
    (∀ st w x k1 k2, split_nibbles w = (0xC, x, k1, k2) → execute st w = none) ∧
    (∀ st w x, split_nibbles w = (0xE, x, 0x9, 0xE) → execute st w = none) ∧
    (∀ st w x, split_nibbles w = (0xE, x, 0xA, 0x1) → execute st w = none) ∧
    (∀ st w x, split_nibbles w = (0xF, x, 0x0, 0xA) → execute st w = none) ∧
    (∀ st w x, split_nibbles w = (0xF, x, 0x2, 0x9) → execute st w = none) ∧
    (∀ st w x, split_nibbles w = (0xF, x, 0x5, 0x5) → execute st w = none) ∧
    (∀ st w x, split_nibbles w = (0xF, x, 0x6, 0x5) → execute st w = none) := by
  refine ⟨?_, ?_, ?_, ?_, ?_, ?_, ?_, ?_, ?_, ?_⟩ <;>
    first
      | (intro st w x y h; unfold execute; rw [h])
      | (intro st w n1 n2 n3 h; unfold execute; rw [h])
      | (intro st w x h; unfold execute; rw [h])

/-- C9 witness: the `8xy6` stub at a concrete instruction word. -/
theorem unimplemented_opcodes_fault_witness :
    execute Chip8.new 0x8126 = none :=
  unimplemented_opcodes_fault.1 Chip8.new 0x8126 1 2 (by decide)

/-! ### Helper lemmas -/

theorem setReg_same (st : Chip8) (i v : Nat) : (setReg st i v).registers i = v := by
  simp [setReg]

theorem setReg_other (st : Chip8) (i v j : Nat) (h : j ≠ i) :
    (setReg st i v).registers j = st.registers j := by
  simp [setReg, h]

/-- C3: the arithmetic opcodes `7xkk`, `8xy4`, `8xy5`, `8xy7` always
succeed (no overflow/underflow panic: the embedding of the wrapping `u8`
arithmetic) and compute their destination register modulo 256; `7xkk`
sets `Vx := (Vx + kk) % 256` and, for `x ≠ 0xF`, leaves `VF` unchanged.
For `8xy4` the clean sum formula is stated for `x, y ≠ 0xF`, where the
carry-flag write cannot alias an operand; `8xy5`/`8xy7` subtract with
wrap-around modulo 256 (both compute `Vx - Vy` in the source). -/
theorem arith_wraps_never_panics :
    (∀ st w x k1 k2, split_nibbles w = (0x7, x, k1, k2) →
      ∃ st', execute st w = some st' ∧
        st'.registers x = (st.registers x + ((k1 <<< 4) ||| k2)) % 256 ∧
        st'.registers x < 256 ∧
        (x ≠ 0xF → st'.registers 0xF = st.registers 0xF)) ∧
    (∀ st w x y, split_nibbles w = (0x8, x, y, 0x4) →
      ∃ st', execute st w = some st' ∧ st'.registers x < 256 ∧
        (x ≠ 0xF → y ≠ 0xF →
          st'.registers x = (st.registers x + st.registers y) % 256)) ∧
    (∀ st w x y, split_nibbles w = (0x8, x, y, 0x5) →
      ∃ st', execute st w = some st' ∧ st'.registers x < 256 ∧
        (st.registers y ≤ 255 →
          (st'.registers x : Int) = ((st.registers x : Int) - (st.registers y : Int)) % 256)) ∧
    (∀ st w x y, split_nibbles w = (0x8, x, y, 0x7) →
      ∃ st', execute st w = some st' ∧ st'.registers x < 256 ∧
        (st.registers y ≤ 255 →
          (st'.registers x : Int) = ((st.registers x : Int) - (st.registers y : Int)) % 256)) := by
  refine ⟨?_, ?_, ?_, ?_⟩
  · intro st w x k1 k2 h
    refine ⟨_, by unfold execute; rw [h], ?_, ?_, ?_⟩
    · rw [setReg_same]
    · rw [setReg_same]
      exact Nat.mod_lt _ (by omega)
    · intro hx
      rw [setReg_other _ _ _ _ (Ne.symm (Ne.symm hx).symm)]
  · intro st w x y h
    refine ⟨_, by unfold execute; rw [h], ?_, ?_⟩
    · rw [setReg_same]
      exact Nat.mod_lt _ (by omega)
    · intro hx hy
      rw [setReg_same]
      by_cases hc : st.registers x + st.registers y > 255
      · rw [if_pos hc, setReg_other _ _ _ _ hx, setReg_other _ _ _ _ hy]
      · rw [if_neg hc]
  · intro st w x y h
    refine ⟨_, by unfold execute; rw [h], ?_, ?_⟩
    · rw [setReg_same]
      exact Nat.mod_lt _ (by omega)
    · intro hy
      rw [setReg_same]
      omega
  · intro st w x y h
    refine ⟨_, by unfold execute; rw [h], ?_, ?_⟩
    · rw [setReg_same]
      exact Nat.mod_lt _ (by omega)
    · intro hy
      rw [setReg_same]
      omega

/-- C3 witness: `7xkk` at `V0 = 0`, `kk = 0xFF`. -/
theorem arith_wraps_never_panics_witness :
    (execute Chip8.new 0x70FF).map (fun s => s.registers 0) = some 255 := by
  obtain ⟨st', h1, h2, _, _⟩ :=
    arith_wraps_never_panics.1 Chip8.new 0x70FF 0 0xF 0xF (by decide)
  rw [h1]
  show some (st'.registers 0) = some 255
  rw [h2]
  decide

/-- Reduction of the `Fx33` arm when the three memory writes are in
bounds. -/
theorem execute_fx33_eq (st : Chip8) (w x : Nat)
    (h : split_nibbles w = (0xF, x, 0x3, 0x3)) (hI : st.reg_i + 2 < 4096) :
    execute st w = some { st with mem := (fun a =>
      if a = st.reg_i + 2 then st.registers x % 10
      else if a = st.reg_i + 1 then (st.registers x % 100 - st.registers x % 10) / 10
      else if a = st.reg_i then st.registers x / 100
      else st.mem a) } := by
  unfold execute
  rw [h]
  simp only [if_pos hI]

/-- C10: `Fx33` stores the three decimal digits of `Vx` at `I`, `I+1`,
`I+2` (hundreds, tens, ones), each at most 9, and they recombine to `Vx`,
whenever `Vx ≤ 255` and `I + 2` is in bounds. -/
theorem execute_fx33_bcd :
    ∀ st w x, split_nibbles w = (0xF, x, 0x3, 0x3) →
      st.registers x ≤ 255 → st.reg_i + 2 < 4096 →
      ∃ st', execute st w = some st' ∧
        st'.mem st.reg_i = st.registers x / 100 ∧
        st'.mem (st.reg_i + 1) = st.registers x / 10 % 10 ∧
        st'.mem (st.reg_i + 2) = st.registers x % 10 ∧
        st'.mem st.reg_i ≤ 9 ∧ st'.mem (st.reg_i + 1) ≤ 9 ∧ st'.mem (st.reg_i + 2) ≤ 9 ∧
        st'.mem st.reg_i * 100 + st'.mem (st.reg_i + 1) * 10 + st'.mem (st.reg_i + 2)
          = st.registers x := by
  intro st w x h hv hI
  refine ⟨_, execute_fx33_eq st w x h hI, ?_, ?_, ?_, ?_, ?_, ?_, ?_⟩ <;> dsimp only
  · rw [if_neg (by omega), if_neg (by omega), if_pos rfl]
  · rw [if_neg (by omega), if_pos rfl]
    omega
  · rw [if_pos rfl]
  · rw [if_neg (by omega), if_neg (by omega), if_pos rfl]
    omega
  · rw [if_neg (by omega), if_pos rfl]
    omega
  · rw [if_pos rfl]
    omega
  · rw [if_pos rfl, if_neg (by omega), if_pos rfl, if_neg (by omega), if_neg (by omega),
      if_pos rfl]
    omega

/-- C10 witness: `F033` at `V0 = 159`, `I = 0` stores digits `1`, `5`, `9`. -/
theorem execute_fx33_bcd_witness :
    (execute bcdState 0xF033).map (fun s => (s.mem 0, s.mem 1, s.mem 2)) = some (1, 5, 9) := by
  obtain ⟨st', h1, h2, h3, h4, _⟩ :=
    execute_fx33_bcd bcdState 0xF033 0 (by decide) (by decide) (by decide)
  rw [h1]
  show some (st'.mem 0, st'.mem 1, st'.mem 2) = some (1, 5, 9)
  have h2' : st'.mem 0 = bcdState.registers 0 / 100 := h2
  have h3' : st'.mem 1 = bcdState.registers 0 / 10 % 10 := h3
  have h4' : st'.mem 2 = bcdState.registers 0 % 10 := h4
  rw [h2', h3', h4']
  decide

/-! ### Draw characterization lemmas -/

theorem rowHit_self_col (sd x_pos sy k : Nat) (hx : x_pos < 64) (hk : k < 64) :
    rowHit sd x_pos sy k sy ((x_pos + k) % 64) = false := by
  rw [Bool.eq_false_iff]
  intro h
  simp only [rowHit, List.any_eq_true, List.mem_range] at h
  obtain ⟨j, hj, hp⟩ := h
  rw [Bool.and_eq_true, Bool.and_eq_true, beq_iff_eq, beq_iff_eq] at hp
  have hc := hp.2
  omega

theorem rowHit_eq_row (sd x_pos sy k r c : Nat) (h : rowHit sd x_pos sy k r c = true) :
    r = sy := by
  simp only [rowHit, List.any_eq_true, List.mem_range] at h
  obtain ⟨j, hj, hp⟩ := h
  rw [Bool.and_eq_true, Bool.and_eq_true, beq_iff_eq, beq_iff_eq] at hp
  exact hp.1.2

theorem drawBitStep_false (sd x_pos sy : Nat) (acc : Display × Nat) (j : Nat)
    (h : (sd >>> (7 - j) &&& 1 != 0) = false) :
    drawBitStep sd x_pos sy acc j = acc := by
  unfold drawBitStep
  rw [h]
  rfl

theorem drawBitStep_true (sd x_pos sy : Nat) (acc : Display × Nat) (j : Nat)
    (h : (sd >>> (7 - j) &&& 1 != 0) = true) :
    drawBitStep sd x_pos sy acc j
      = (updPix acc.1 sy ((x_pos + j) % 64) (xor (acc.1 sy ((x_pos + j) % 64)) true),
         if acc.1 sy ((x_pos + j) % 64) then 1 else acc.2) := by
  unfold drawBitStep
  rw [h]
  rfl

theorem rowFold_display (sd x_pos sy : Nat) (hx : x_pos < 64) :
    ∀ k, k ≤ 64 → ∀ (acc : Display × Nat) (r c : Nat),
    ((List.range k).foldl (drawBitStep sd x_pos sy) acc).1 r c
      = xor (acc.1 r c) (rowHit sd x_pos sy k r c) := by
  intro k
  induction k with
  | zero =>
    intro _ acc r c
    simp [rowHit]
  | succ k ih =>
    intro hk acc r c
    rw [List.range_succ, List.foldl_append, List.foldl_cons, List.foldl_nil]
    have hrh : rowHit sd x_pos sy (k + 1) r c
        = (rowHit sd x_pos sy k r c
           || ((sd >>> (7 - k) &&& 1 != 0) && (r == sy) && (c == (x_pos + k) % 64))) := by
      simp [rowHit, List.range_succ]
    rw [hrh]
    cases hpix : sd >>> (7 - k) &&& 1 != 0 with
    | false =>
      rw [drawBitStep_false sd x_pos sy _ k hpix, ih (by omega) acc r c]
      simp
    | true =>
      rw [drawBitStep_true sd x_pos sy _ k hpix]
      dsimp only
      simp only [updPix, Bool.true_and]
      by_cases hrc : r = sy ∧ c = (x_pos + k) % 64
      · rw [if_pos hrc]
        obtain ⟨hr, hc⟩ := hrc
        rw [hr, hc]
        rw [ih (by omega) acc sy ((x_pos + k) % 64)]
        rw [rowHit_self_col sd x_pos sy k hx (by omega)]
        simp
      · rw [if_neg hrc]
        rw [ih (by omega) acc r c]
        have hfalse : ((r == sy) && (c == (x_pos + k) % 64)) = false := by
          rcases not_and_or.mp hrc with h | h
          · simp [beq_eq_false_iff_ne.mpr h]
          · simp [beq_eq_false_iff_ne.mpr h]
        rw [hfalse]
        simp

theorem rowFold_flag (sd x_pos sy : Nat) (hx : x_pos < 64) :
    ∀ k, k ≤ 64 → ∀ acc : Display × Nat,
    ((List.range k).foldl (drawBitStep sd x_pos sy) acc).2
      = if rowColl acc.1 sd x_pos sy k then 1 else acc.2 := by
  intro k
  induction k with
  | zero =>
    intro _ acc
    simp [rowColl]
  | succ k ih =>
    intro hk acc
    rw [List.range_succ, List.foldl_append, List.foldl_cons, List.foldl_nil]
    have hrc : rowColl acc.1 sd x_pos sy (k + 1)
        = (rowColl acc.1 sd x_pos sy k
           || ((sd >>> (7 - k) &&& 1 != 0) && acc.1 sy ((x_pos + k) % 64))) := by
      simp [rowColl, List.range_succ]
    rw [hrc]
    cases hpix : sd >>> (7 - k) &&& 1 != 0 with
    | false =>
      rw [drawBitStep_false sd x_pos sy _ k hpix, ih (by omega) acc]
      simp
    | true =>
      rw [drawBitStep_true sd x_pos sy _ k hpix]
      dsimp only
      rw [rowFold_display sd x_pos sy hx k (by omega) acc sy ((x_pos + k) % 64)]
      rw [rowHit_self_col sd x_pos sy k hx (by omega)]
      rw [ih (by omega) acc]
      cases hP : acc.1 sy ((x_pos + k) % 64) <;>
        cases hC : rowColl acc.1 sd x_pos sy k <;> simp [hP, hC]

theorem hitUpTo_fresh_row (st : Chip8) (x_pos y_pos k c : Nat) (hy : y_pos < 32)
    (hk : k < 32) :
    hitUpTo st x_pos y_pos k ((y_pos + k) % 32) c = false := by
  rw [Bool.eq_false_iff]
  intro h
  simp only [hitUpTo, List.any_eq_true, List.mem_range] at h
  obtain ⟨i, hik, hri⟩ := h
  have := rowHit_eq_row _ _ _ _ _ _ hri
  omega

theorem rowsFold_display (st : Chip8) (x_pos y_pos : Nat) (hx : x_pos < 64)
    (hy : y_pos < 32) :
    ∀ k, k ≤ 32 → ∀ (acc : Display × Nat) (r c : Nat),
    ((List.range k).foldl (drawRowStep st x_pos y_pos) acc).1 r c
      = xor (acc.1 r c) (hitUpTo st x_pos y_pos k r c) := by
  intro k
  induction k with
  | zero =>
    intro _ acc r c
    simp [hitUpTo]
  | succ k ih =>
    intro hk acc r c
    rw [List.range_succ, List.foldl_append, List.foldl_cons, List.foldl_nil]
    have hup : hitUpTo st x_pos y_pos (k + 1) r c
        = (hitUpTo st x_pos y_pos k r c
           || rowHit (st.mem (st.reg_i + k)) x_pos ((y_pos + k) % 32) 8 r c) := by
      simp [hitUpTo, List.range_succ]
    rw [hup]
    simp only [drawRowStep, drawRow]
    rw [rowFold_display (st.mem (st.reg_i + k)) x_pos ((y_pos + k) % 32) hx 8 (by omega)
      ((List.range k).foldl (drawRowStep st x_pos y_pos) acc) r c]
    rw [ih (by omega) acc r c]
    cases hh1 : hitUpTo st x_pos y_pos k r c with
    | false => simp
    | true =>
      cases hh2 : rowHit (st.mem (st.reg_i + k)) x_pos ((y_pos + k) % 32) 8 r c with
      | false => simp
      | true =>
        have hr2 := rowHit_eq_row _ _ _ _ _ _ hh2
        have hex : ∃ i, i < k ∧
            rowHit (st.mem (st.reg_i + i)) x_pos ((y_pos + i) % 32) 8 r c = true := by
          simpa only [hitUpTo, List.any_eq_true, List.mem_range] using hh1
        obtain ⟨i, hik, hri⟩ := hex
        have hr1 := rowHit_eq_row _ _ _ _ _ _ hri
        exact absurd (hr1.symm.trans hr2) (by omega)

theorem rowsFold_flag (st : Chip8) (x_pos y_pos : Nat) (hx : x_pos < 64)
    (hy : y_pos < 32) :
    ∀ k, k ≤ 32 → ∀ acc : Display × Nat,
    ((List.range k).foldl (drawRowStep st x_pos y_pos) acc).2
      = if collUpTo acc.1 st x_pos y_pos k then 1 else acc.2 := by
  intro k
  induction k with
  | zero =>
    intro _ acc
    simp [collUpTo]
  | succ k ih =>
    intro hk acc
    rw [List.range_succ, List.foldl_append, List.foldl_cons, List.foldl_nil]
    have hcu : collUpTo acc.1 st x_pos y_pos (k + 1)
        = (collUpTo acc.1 st x_pos y_pos k
           || rowColl acc.1 (st.mem (st.reg_i + k)) x_pos ((y_pos + k) % 32) 8) := by
      simp [collUpTo, List.range_succ]
    rw [hcu]
    simp only [drawRowStep, drawRow]
    rw [rowFold_flag (st.mem (st.reg_i + k)) x_pos ((y_pos + k) % 32) hx 8 (by omega)
      ((List.range k).foldl (drawRowStep st x_pos y_pos) acc)]
    have hcong : rowColl ((List.range k).foldl (drawRowStep st x_pos y_pos) acc).1
          (st.mem (st.reg_i + k)) x_pos ((y_pos + k) % 32) 8
        = rowColl acc.1 (st.mem (st.reg_i + k)) x_pos ((y_pos + k) % 32) 8 := by
      simp only [rowColl]
      congr 1
      funext j
      congr 1
      rw [rowsFold_display st x_pos y_pos hx hy k (by omega) acc ((y_pos + k) % 32)
        ((x_pos + j) % 64)]
      rw [hitUpTo_fresh_row st x_pos y_pos k ((x_pos + j) % 64) hy (by omega)]
      simp
    rw [hcong, ih (by omega) acc]
    cases hP : rowColl acc.1 (st.mem (st.reg_i + k)) x_pos ((y_pos + k) % 32) 8 <;>
      cases hC : collUpTo acc.1 st x_pos y_pos k <;> simp

/-- Master characterization of the `Dxyn` arm: under the no-panic guard,
the draw XOR-flips exactly the pixels a set sprite bit lands on, and `VF`
ends `1` exactly when some set sprite bit lands on a pixel that was on
(independently of the prior `VF`). -/
theorem draw_spec (st : Chip8) (x y n : Nat) (hn : n ≤ 32)
    (hguard : n = 0 ∨ st.reg_i + n ≤ 4096) :
    draw st x y n = some { st with
      display := (fun r c => xor (st.display r c) (spriteBit st x y n r c))
      registers := (fun j => if j = 0xF then (if collides st x y n then 1 else 0)
        else st.registers j) } := by
  unfold draw
  rw [if_pos hguard]
  have hdisp : (drawRows st (st.registers x % 64) (st.registers y % 32) n).1
      = (fun r c => xor (st.display r c) (spriteBit st x y n r c)) := by
    funext r c
    unfold drawRows
    rw [rowsFold_display st (st.registers x % 64) (st.registers y % 32)
      (Nat.mod_lt _ (by omega)) (Nat.mod_lt _ (by omega)) n hn (st.display, 0) r c]
    simp only [hitUpTo, rowHit, spriteBit, Nat.mod_add_mod]
  have hflag : (drawRows st (st.registers x % 64) (st.registers y % 32) n).2
      = (if collides st x y n then 1 else 0) := by
    unfold drawRows
    rw [rowsFold_flag st (st.registers x % 64) (st.registers y % 32)
      (Nat.mod_lt _ (by omega)) (Nat.mod_lt _ (by omega)) n hn (st.display, 0)]
    simp only [collUpTo, rowColl, collides, Nat.mod_add_mod]
  simp only [hdisp, hflag]

/-- The `Dxyn` arm of `execute` is `draw`. -/
theorem execute_dxyn (st : Chip8) (w x y n : Nat)
    (h : split_nibbles w = (0xD, x, y, n)) :
    execute st w = draw st x y n := by
  unfold execute
  rw [h]

/-- The fourth nibble of a decoded word is at most 15. -/
theorem split_nibbles_fourth_le (w a b c d : Nat)
    (h : split_nibbles w = (a, b, c, d)) : d ≤ 15 := by
  have h4 := congrArg (fun t : Nat × Nat × Nat × Nat => t.2.2.2) h
  simp only [split_nibbles] at h4
  have : w &&& 15 ≤ 15 := Nat.and_le_right
  omega

/-- C5: executing `Dxyn` (with `I + n` in bounds) XOR-flips exactly the
pixels `((Vx + j) mod 64, (Vy + i) mod 32)` targeted by the set sprite
bits; `VF` is reset at the start regardless of its prior value and ends 1
exactly when some pixel transitioned from on to off; and the concrete
`D002` scenario with sprite `{0xFF, 0x00}` at `(0, 0)` on an empty
framebuffer turns on exactly row 0, columns 0-7, with `VF = 0`. -/
theorem execute_dxyn_xor_draw :
    (∀ st w x y n, split_nibbles w = (0xD, x, y, n) → st.reg_i + n ≤ 4096 →
      ∃ st', execute st w = some st' ∧
        (∀ r c, st'.display r c = xor (st.display r c) (spriteBit st x y n r c)) ∧
        st'.registers 0xF = (if collides st x y n then 1 else 0)) ∧
    (∃ st', execute d002state 0xD002 = some st' ∧
      (∀ r, r < 32 → ∀ c, c < 64 → st'.display r c = decide (r = 0 ∧ c < 8)) ∧
      st'.registers 0xF = 0) := by
  have gen : ∀ st w x y n, split_nibbles w = (0xD, x, y, n) → st.reg_i + n ≤ 4096 →
      execute st w = some { st with
        display := (fun r c => xor (st.display r c) (spriteBit st x y n r c))
        registers := (fun j => if j = 0xF then (if collides st x y n then 1 else 0)
          else st.registers j) } := by
    intro st w x y n h hb
    have hn : n ≤ 32 := le_trans (split_nibbles_fourth_le w _ _ _ _ h) (by omega)
    exact (execute_dxyn st w x y n h).trans (draw_spec st x y n hn (Or.inr hb))
  constructor
  · intro st w x y n h hb
    refine ⟨_, gen st w x y n h hb, ?_, ?_⟩
    · intro r c
      rfl
    · dsimp only
      rw [if_pos rfl]
  · refine ⟨_, gen d002state 0xD002 0 0 2 (by decide) (by decide), ?_, ?_⟩
    · dsimp only
      decide
    · dsimp only
      decide

/-- C5 witness: the general conjunct applied to the `D002` scenario state. -/
theorem execute_dxyn_xor_draw_witness :
    (execute d002state 0xD002).map (fun s => s.registers 0xF) = some 0 := by
  obtain ⟨st', h1, _, h3⟩ :=
    execute_dxyn_xor_draw.1 d002state 0xD002 0 0 2 (by decide) (by decide)
  rw [h1]
  show some (st'.registers 0xF) = some 0
  rw [h3]
  decide

/-- C6: drawing the same `Dxyn` sprite twice in succession (same sprite
bytes at `I`, same `Vx`, `Vy`, `n` — stated as hypotheses that the operand
registers are unchanged by the first draw; the sprite bytes and `I` are
unchanged automatically) restores every framebuffer pixel to its pre-draw
value, and the second application's `VF` is the collision flag computed
on the intermediate state left by the first draw. -/
theorem execute_dxyn_double_draw_restores :
    ∀ st w x y n st1 st2, split_nibbles w = (0xD, x, y, n) →
      execute st w = some st1 → execute st1 w = some st2 →
      st1.registers x = st.registers x → st1.registers y = st.registers y →
      (∀ r c, st2.display r c = st.display r c) ∧
      st2.registers 0xF = (if collides st1 x y n then 1 else 0) := by
  intro st w x y n st1 st2 h h1 h2 hx hy
  have hn : n ≤ 32 := le_trans (split_nibbles_fourth_le w _ _ _ _ h) (by omega)
  have hguard : n = 0 ∨ st.reg_i + n ≤ 4096 := by
    by_contra hg
    rw [execute_dxyn st w x y n h] at h1
    unfold draw at h1
    rw [if_neg hg] at h1
    exact Option.noConfusion h1
  have e1 := (execute_dxyn st w x y n h).trans (draw_spec st x y n hn hguard)
  have hst1 := Option.some.inj (h1.symm.trans e1)
  have hmem : st1.mem = st.mem := by rw [hst1]
  have hri : st1.reg_i = st.reg_i := by rw [hst1]
  have hguard1 : n = 0 ∨ st1.reg_i + n ≤ 4096 := by rw [hri]; exact hguard
  have e2 := (execute_dxyn st1 w x y n h).trans (draw_spec st1 x y n hn hguard1)
  have hst2 := Option.some.inj (h2.symm.trans e2)
  constructor
  · intro r c
    rw [hst2]
    dsimp only
    have hsb : spriteBit st1 x y n r c = spriteBit st x y n r c := by
      simp only [spriteBit]
      rw [hmem, hri, hx, hy]
    rw [hsb]
    have hd : st1.display r c = xor (st.display r c) (spriteBit st x y n r c) := by
      rw [hst1]
    rw [hd]
    simp [Bool.xor_assoc]
  · rw [hst2]
    dsimp only
    rw [if_pos rfl]

/-- C6 witness: the double `D002` draw from the scenario state, through
the two characterized intermediate states. -/
theorem execute_dxyn_double_draw_restores_witness :
    c6wit2.display 0 0 = d002state.display 0 0 ∧
    c6wit2.registers 0xF = (if collides c6wit1 0 0 2 then 1 else 0) := by
  have h1 : execute d002state 0xD002 = some c6wit1 := by
    rw [execute_dxyn d002state 0xD002 0 0 2 (by decide)]
    rw [draw_spec d002state 0 0 2 (by decide) (Or.inr (by decide))]
    rfl
  have h2 : execute c6wit1 0xD002 = some c6wit2 := by
    rw [execute_dxyn c6wit1 0xD002 0 0 2 (by decide)]
    rw [draw_spec c6wit1 0 0 2 (by decide) (Or.inr (by decide))]
    rfl
  have H := execute_dxyn_double_draw_restores d002state 0xD002 0 0 2 c6wit1 c6wit2
    (by decide) h1 h2 (by decide) (by decide)
  exact ⟨H.1 0 0, H.2⟩
